import Mathlib

/-!
Shallow embedding of the Academoscope analytics engine.

Sources embedded:
- `src/services/metrics_worker/worker.py` — snapshot aggregator
  (`calculate_course_metrics`, `calculate_lesson_metrics`, `run_once`);
- `src/services/dashboard/app.py` — windowed funnel calculators
  (`_calculate_course_metrics_for_period`, `_calculate_lesson_metrics_for_period`),
  the student status classifier (`_get_student_status`), the per-student course
  progress computation inside `student_detail`, and the schedule conflict scan
  inside `schedule_view`;
- `src/common/models.py` — data model (events, metrics rows).

Python's `int(a / b * 100)` performs true (binary64 floating point) division
and multiplication followed by truncation toward zero.  We model binary64
arithmetic exactly: an IEEE round-to-nearest-even with a 53-bit significand
and unbounded exponent range (the values reached here are far from overflow
and subnormal territory, where this model coincides with IEEE 754).  All
arithmetic is on `Nat`/`Int` so that the kernel can evaluate it.

Timestamps are modelled as integers (seconds); `timedelta(hours=1)` is 3600
and `timedelta.days` is flooring division by 86400, exactly as Python's
normalized `timedelta` behaves.
-/

/-- Fuel-driven floor-log2 helper: `log2Fuel fuel n = ⌊log₂ n⌋` whenever
`n ≤ fuel` and `n ≥ 1`. -/
def log2Fuel : Nat → Nat → Nat
  | 0, _ => 0
  | fuel + 1, n => if 2 ≤ n then log2Fuel fuel (n / 2) + 1 else 0

/-- Floor of the base-2 logarithm of a natural number (0 for 0). -/
def nlog2 (n : Nat) : Nat := log2Fuel n n

/-- Round-to-nearest, ties-to-even, of the rational `N / D` (both natural). -/
def rnearestDiv (N D : ℕ) : ℕ :=
  let q := N / D
  let r := N % D
  if 2 * r < D then q
  else if D < 2 * r then q + 1
  else if q % 2 = 0 then q else q + 1

/-- Decide `n / d < 2 ^ c` over the rationals using only integer arithmetic. -/
def ratLtPow2 (n d : ℕ) (c : ℤ) : Bool :=
  if 0 ≤ c then decide (n < d * 2 ^ c.toNat) else decide (n * 2 ^ (-c).toNat < d)

/-- Floor of the base-2 logarithm of `n / d` (for `n, d ≥ 1`). -/
def ratLog2 (n d : ℕ) : ℤ :=
  let e0 : ℤ := (nlog2 n : ℤ) - (nlog2 d : ℤ)
  if ratLtPow2 n d e0 then e0 - 1 else e0

/-- Binary64 value of the true division `n / d`: a pair `(m, s)` denoting
`m * 2 ^ s`, with `m` the correctly rounded 53-bit significand. -/
def floatOfRatDiv (n d : ℕ) : ℕ × ℤ :=
  if n = 0 then (0, 0)
  else
    let t : ℤ := 52 - ratLog2 n d
    if 0 ≤ t then (rnearestDiv (n * 2 ^ t.toNat) d, -t)
    else (rnearestDiv n (d * 2 ^ (-t).toNat), -t)

/-- Re-round a dyadic value `M * 2 ^ s` to a 53-bit significand
(round-to-nearest, ties-to-even). -/
def roundSig (M : ℕ) (s : ℤ) : ℕ × ℤ :=
  if nlog2 M ≤ 52 then (M, s)
  else
    let k := nlog2 M - 52
    (rnearestDiv M (2 ^ k), s + k)

/-- Binary64 multiplication of a float by the exact constant 100. -/
def floatMul100 (x : ℕ × ℤ) : ℕ × ℤ := roundSig (100 * x.1) x.2

/-- Floor (= Python `int` truncation, for nonnegative values) of a dyadic
value `m * 2 ^ s`. -/
def floorFloat (x : ℕ × ℤ) : ℕ :=
  if 0 ≤ x.2 then x.1 * 2 ^ x.2.toNat else x.1 / 2 ^ (-x.2).toNat

/-- Python `int(num / den * 100) if den else 0` for nonnegative integers,
with binary64 arithmetic (worker.py line 50-52, app.py line 1793-1795). -/
def pyPercent (num den : ℕ) : ℕ :=
  if den = 0 then 0 else floorFloat (floatMul100 (floatOfRatDiv num den))

/-- Python `int((started - completed) / started * 100) if started else 0`
(worker.py line 99-103, app.py line 720-724).  The subtraction is exact
integer arithmetic and may be negative; binary64 arithmetic is
sign-symmetric and `int` truncates toward zero, so the negative case is
the negated nonnegative computation. -/
def pyDropOffPercent (started completed : ℕ) : ℤ :=
  if started = 0 then 0
  else if completed ≤ started then (pyPercent (started - completed) started : ℤ)
  else -(pyPercent (completed - started) started : ℤ)

/-- Event kinds (`EventTypeEnum` in models.py). -/
inductive EventTypeEnum where
  | enrolled
  | lesson_started
  | lesson_completed
  | course_completed
  deriving DecidableEq

/-- An `events` row (models.py `Event`): course, student, optional lesson,
kind, occurrence timestamp.  The opaque payload plays no role in any
computation embedded here. -/
structure Event where
  course_id : ℕ
  student_id : ℕ
  lesson_id : Option ℕ
  event_type : EventTypeEnum
  occurred_at : ℤ
  deriving DecidableEq

/-- A `lessons` row (models.py `Lesson`), keeping the fields the embedded
computations read. -/
structure Lesson where
  id : ℕ
  course_id : ℕ
  deriving DecidableEq

/-- The event store: course ids, lessons, events. -/
structure Store where
  courses : List ℕ
  lessons : List Lesson
  events : List Event
  deriving DecidableEq

/-- SQL `count(distinct events.student_id) filter p`. -/
def distinctStudents (events : List Event) (p : Event → Bool) : ℕ :=
  ((events.filter p).map (·.student_id)).dedup.length

/-- Worker: distinct students with an `enrolled` event for the course
(worker.py line 30-38). -/
def courseEnrolledCount (events : List Event) (cid : ℕ) : ℕ :=
  distinctStudents events
    (fun e => e.course_id = cid ∧ e.event_type = EventTypeEnum.enrolled)

/-- Worker: distinct students with a `course_completed` event for the course
(worker.py line 40-48). -/
def courseCompletedCount (events : List Event) (cid : ℕ) : ℕ :=
  distinctStudents events
    (fun e => e.course_id = cid ∧ e.event_type = EventTypeEnum.course_completed)

/-- Worker: distinct students with a `lesson_started` event for the lesson
(worker.py line 79-87). -/
def lessonStartedCount (events : List Event) (lid : ℕ) : ℕ :=
  distinctStudents events
    (fun e => e.lesson_id = some lid ∧ e.event_type = EventTypeEnum.lesson_started)

/-- Worker: distinct students with a `lesson_completed` event for the lesson
(worker.py line 89-97). -/
def lessonCompletedCount (events : List Event) (lid : ℕ) : ℕ :=
  distinctStudents events
    (fun e => e.lesson_id = some lid ∧ e.event_type = EventTypeEnum.lesson_completed)

/-- A `course_metrics` row (models.py `CourseMetrics`). -/
structure CourseMetrics where
  course_id : ℕ
  total_students : ℕ
  completed_students : ℕ
  completion_rate : ℤ
  updated_at : ℤ
  deriving DecidableEq

/-- A `lesson_metrics` row (models.py `LessonMetrics`). -/
structure LessonMetrics where
  lesson_id : ℕ
  started_students : ℕ
  completed_students : ℕ
  drop_off_rate : ℤ
  updated_at : ℤ
  deriving DecidableEq

/-- The two materialized snapshot tables. -/
structure Snapshots where
  course : List CourseMetrics
  lesson : List LessonMetrics
  deriving DecidableEq

/-- Worker upsert for one course (worker.py line 54-71): query the row by
`course_id` (unique column, so at most one row matches), mutate its count
and rate fields if present, otherwise add a fresh row whose `updated_at`
defaults to the current time (models.py line 83; there is no `onupdate`,
so updates leave `updated_at` untouched). -/
def upsertCourseMetrics (events : List Event) (now : ℤ) (tbl : List CourseMetrics)
    (cid : ℕ) : List CourseMetrics :=
  let ts := courseEnrolledCount events cid
  let cs := courseCompletedCount events cid
  let rate : ℤ := (pyPercent cs ts : ℤ)
  if tbl.any (fun r => r.course_id = cid) then
    tbl.map (fun r =>
      if r.course_id = cid then
        { r with total_students := ts, completed_students := cs, completion_rate := rate }
      else r)
  else
    tbl ++ [{ course_id := cid, total_students := ts, completed_students := cs,
              completion_rate := rate, updated_at := now }]

/-- Worker upsert for one lesson (worker.py line 105-122), analogous. -/
def upsertLessonMetrics (events : List Event) (now : ℤ) (tbl : List LessonMetrics)
    (lid : ℕ) : List LessonMetrics :=
  let ss := lessonStartedCount events lid
  let cs := lessonCompletedCount events lid
  let rate : ℤ := pyDropOffPercent ss cs
  if tbl.any (fun r => r.lesson_id = lid) then
    tbl.map (fun r =>
      if r.lesson_id = lid then
        { r with started_students := ss, completed_students := cs, drop_off_rate := rate }
      else r)
  else
    tbl ++ [{ lesson_id := lid, started_students := ss, completed_students := cs,
              drop_off_rate := rate, updated_at := now }]

/-- Worker course phase (worker.py line 27-73): upsert every course in turn;
the single `db.commit()` at line 73 makes the whole phase one transaction. -/
def calculate_course_metrics (events : List Event) (now : ℤ) :
    List ℕ → List CourseMetrics → List CourseMetrics
  | [], tbl => tbl
  | c :: cs, tbl =>
      calculate_course_metrics events now cs (upsertCourseMetrics events now tbl c)

/-- Worker lesson phase (worker.py line 76-124), analogous. -/
def calculate_lesson_metrics (events : List Event) (now : ℤ) :
    List Lesson → List LessonMetrics → List LessonMetrics
  | [], tbl => tbl
  | l :: ls, tbl =>
      calculate_lesson_metrics events now ls (upsertLessonMetrics events now tbl l.id)

/-- Worker course phase with a fault oracle: `failOn c = true` means the
database raises while computing course `c`'s metrics.  The source has no
per-entity exception handling, so the first failure propagates out of the
function before the final `db.commit()` runs. -/
def calculate_course_metrics_f (failOn : ℕ → Bool) (events : List Event) (now : ℤ) :
    List ℕ → List CourseMetrics → Except Unit (List CourseMetrics)
  | [], tbl => .ok tbl
  | c :: cs, tbl =>
      if failOn c then .error ()
      else calculate_course_metrics_f failOn events now cs (upsertCourseMetrics events now tbl c)

/-- Worker lesson phase with a fault oracle, analogous. -/
def calculate_lesson_metrics_f (failOn : ℕ → Bool) (events : List Event) (now : ℤ) :
    List Lesson → List LessonMetrics → Except Unit (List LessonMetrics)
  | [], tbl => .ok tbl
  | l :: ls, tbl =>
      if failOn l.id then .error ()
      else calculate_lesson_metrics_f failOn events now ls (upsertLessonMetrics events now tbl l.id)

/-- Worker `run_once` (worker.py line 127-135): course phase then lesson
phase, each committing at its own end. -/
def run_once (store : Store) (now : ℤ) (snap : Snapshots) : Snapshots :=
  { course := calculate_course_metrics store.events now store.courses snap.course
    lesson := calculate_lesson_metrics store.events now store.lessons snap.lesson }

/-- Worker `run_once` under the fault oracles.  An exception in the course
phase escapes before either commit: the session is closed in the `finally`
block without committing, discarding every pending upsert, so the committed
state is unchanged.  An exception in the lesson phase happens after the
course-phase commit. -/
def run_once_f (failC failL : ℕ → Bool) (store : Store) (now : ℤ)
    (snap : Snapshots) : Snapshots :=
  match calculate_course_metrics_f failC store.events now store.courses snap.course with
  | .error _ => snap
  | .ok ct =>
    match calculate_lesson_metrics_f failL store.events now store.lessons snap.lesson with
    | .error _ => { snap with course := ct }
    | .ok lt => { course := ct, lesson := lt }

/-- Lookup of a snapshot row by its natural key. -/
def getCourseRow (tbl : List CourseMetrics) (cid : ℕ) : Option CourseMetrics :=
  tbl.find? (fun r => r.course_id = cid)

/-- Lookup of a lesson snapshot row by its natural key. -/
def getLessonRow (tbl : List LessonMetrics) (lid : ℕ) : Option LessonMetrics :=
  tbl.find? (fun r => r.lesson_id = lid)

/-- Window filter (`Event.occurred_at >= start_at` when a lower bound is
present, app.py line 1776-1777). -/
def inWindow (start_at : Option ℤ) (e : Event) : Bool :=
  match start_at with
  | none => true
  | some t => decide (t ≤ e.occurred_at)

/-- Dashboard windowed course funnel (app.py line 1772-1797,
`_calculate_course_metrics_for_period`): distinct enrolled students,
distinct completed students, and the rate; no existence check on the id. -/
def calculate_course_metrics_for_period (events : List Event) (course_id : ℕ)
    (start_at : Option ℤ) : ℕ × ℕ × ℤ :=
  let total := distinctStudents events
    (fun e => e.event_type = EventTypeEnum.enrolled ∧ e.course_id = course_id ∧
      inWindow start_at e)
  let completed := distinctStudents events
    (fun e => e.event_type = EventTypeEnum.course_completed ∧ e.course_id = course_id ∧
      inWindow start_at e)
  (total, completed, (pyPercent completed total : ℤ))

/-- Dashboard windowed lesson funnel (app.py line 1800-1821,
`_calculate_lesson_metrics_for_period`): started/completed distinct student
counts; no existence check on the id. -/
def calculate_lesson_metrics_for_period (events : List Event) (lesson_id : ℕ)
    (start_at : Option ℤ) : ℕ × ℕ :=
  let started := distinctStudents events
    (fun e => e.event_type = EventTypeEnum.lesson_started ∧ e.lesson_id = some lesson_id ∧
      inWindow start_at e)
  let completed := distinctStudents events
    (fun e => e.event_type = EventTypeEnum.lesson_completed ∧ e.lesson_id = some lesson_id ∧
      inWindow start_at e)
  (started, completed)

/-- Dashboard `course_detail` route (app.py line 691-702): looks the course
up and aborts with HTTP 404 (`none`) when it does not exist, and only then
invokes the period calculator. -/
def course_detail (store : Store) (course_id : ℕ) (start_at : Option ℤ) :
    Option (ℕ × ℕ × ℤ) :=
  if course_id ∈ store.courses then
    some (calculate_course_metrics_for_period store.events course_id start_at)
  else none

/-- Dashboard `student_detail`: lessons of the course (app.py line 814-819,
`count(distinct Lesson.id)` filtered by course). -/
def total_lessons (store : Store) (cid : ℕ) : ℕ :=
  ((store.lessons.filter (fun l => l.course_id = cid)).map (·.id)).dedup.length

/-- Dashboard `student_detail`: distinct completed lessons of a student in a
course, in-window (app.py line 825-836). -/
def completed_lessons (events : List Event) (sid cid : ℕ) (start_at : Option ℤ) : ℕ :=
  ((events.filter (fun e => e.student_id = sid ∧ e.course_id = cid ∧
    e.event_type = EventTypeEnum.lesson_completed ∧ e.lesson_id ≠ none ∧
    inWindow start_at e)).filterMap (·.lesson_id)).dedup.length

/-- Dashboard `student_detail`: whether a `course_completed` event exists
in-window for the pair (app.py line 851-861). -/
def has_course_completed (events : List Event) (sid cid : ℕ) (start_at : Option ℤ) : Bool :=
  events.any (fun e => e.student_id = sid ∧ e.course_id = cid ∧
    e.event_type = EventTypeEnum.course_completed ∧ inWindow start_at e)

/-- Dashboard `student_detail` per-course progress (app.py line 863-869):
lesson ratio when the course has lessons, else 100/0 by completion; then
the override lifts any value below 100 to 100 when a `course_completed`
event exists in-window. -/
def student_progress (store : Store) (sid cid : ℕ) (start_at : Option ℤ) : ℤ :=
  let t := total_lessons store cid
  let cl := completed_lessons store.events sid cid start_at
  let hcc := has_course_completed store.events sid cid start_at
  let p : ℤ := if t ≠ 0 then (pyPercent cl t : ℤ) else if hcc then 100 else 0
  if hcc = true ∧ p < 100 then 100 else p

/-- Status labels returned by `_get_student_status` (app.py line 70-90); the
human-readable label and badge color are fixed functions of this code. -/
inductive StatusCode where
  | no_data
  | active
  | inactive
  | risk
  deriving DecidableEq

/-- Dashboard `_get_student_status` (app.py line 70-90): `days_inactive` is
`(utcnow() - last_seen_at).days`, Python's flooring whole-day count. -/
def get_student_status (last_seen_at : Option ℤ) (now : ℤ) : StatusCode :=
  match last_seen_at with
  | none => .no_data
  | some t =>
    let days_inactive := Int.fdiv (now - t) 86400
    if days_inactive ≤ 7 then .active
    else if days_inactive ≤ 30 then .inactive
    else .risk

/-- A `schedule_slots` row as read by the conflict scan. -/
structure Slot where
  id : ℕ
  teacher_id : Option ℕ
  start_at : ℤ
  end_at : Option ℤ
  deriving DecidableEq

/-- Effective end of a slot (app.py line 1338): the explicit end, or one
hour (3600 s) past the start. -/
def effective_end (s : Slot) : ℤ :=
  match s.end_at with
  | some e => e
  | none => s.start_at + 3600

/-- Two slots overlap in time (nonempty intersection of the half-open
intervals `[start, effective end)`). -/
def slotOverlap (a b : Slot) : Prop :=
  a.start_at < effective_end b ∧ b.start_at < effective_end a

/-- Stable insertion of a slot into a start-sorted list: existing slots with
an equal or earlier start stay in front. -/
def insertByStart (s : Slot) : List Slot → List Slot
  | [] => [s]
  | t :: ts => if t.start_at ≤ s.start_at then t :: insertByStart s ts else s :: t :: ts

/-- Stable sort by `start_at` (app.py line 1335; Python's `list.sort` is
stable, and a stable sort's output is unique, so insertion sort embeds it). -/
def sortByStart (l : List Slot) : List Slot :=
  l.foldl (fun acc s => insertByStart s acc) []

/-- Slots of one teacher, in encounter order (app.py line 1329-1332;
`setdefault(...).append(...)` preserves the query order). -/
def slotsForTeacher (slots : List Slot) (t : ℕ) : List Slot :=
  slots.filter (fun s => s.teacher_id = some t)

/-- Teachers appearing among the slots (slots with `teacher_id` null are
excluded, app.py line 1330-1331).  Group order is irrelevant: the result of
the scan is a set of ids. -/
def teacher_ids (slots : List Slot) : List ℕ :=
  (slots.filterMap (·.teacher_id)).dedup

/-- Adjacency scan over a start-sorted slot list (app.py line 1336-1342):
whenever the next slot starts strictly before the current slot's effective
end, both ids are flagged. -/
def adjacent_conflicts : List Slot → List ℕ
  | a :: b :: rest =>
    (if b.start_at < effective_end a then [a.id, b.id] else []) ++
      adjacent_conflicts (b :: rest)
  | _ => []

/-- The conflict id set of `schedule_view` (app.py line 1327-1342), as the
list whose membership is the set: per-teacher stable sort by start followed
by the adjacency scan. -/
def find_conflicts (slots : List Slot) : List ℕ :=
  (teacher_ids slots).flatMap
    (fun t => adjacent_conflicts (sortByStart (slotsForTeacher slots t)))

/-- Positional frame relation between a snapshot table before and after a
pass: rows keep their position, key and `updated_at`; any appended row
carries `updated_at = now`. -/
def FrameOK {α : Type} (keyOf : α → ℕ) (stampOf : α → ℤ) (now : ℤ)
    (tbl tbl' : List α) : Prop :=
  tbl.length ≤ tbl'.length ∧
  (∀ (i : ℕ) r r', tbl[i]? = some r → tbl'[i]? = some r' →
    keyOf r' = keyOf r ∧ stampOf r' = stampOf r) ∧
  (∀ (i : ℕ) r', tbl'[i]? = some r' → tbl.length ≤ i → stampOf r' = now)

/-- Course snapshot table fully refreshed for a course id: a row for it
exists and every row carrying the id holds the freshly computed values. -/
def CourseTableUpdated (events : List Event) (cid : ℕ) (tbl : List CourseMetrics) : Prop :=
  (∃ r ∈ tbl, r.course_id = cid) ∧
  ∀ r ∈ tbl, r.course_id = cid →
    r.total_students = courseEnrolledCount events cid ∧
    r.completed_students = courseCompletedCount events cid ∧
    r.completion_rate = (pyPercent (courseCompletedCount events cid) (courseEnrolledCount events cid) : ℤ)

/-- Lesson snapshot table fully refreshed for a lesson id, analogous. -/
def LessonTableUpdated (events : List Event) (lid : ℕ) (tbl : List LessonMetrics) : Prop :=
  (∃ r ∈ tbl, r.lesson_id = lid) ∧
  ∀ r ∈ tbl, r.lesson_id = lid →
    r.started_students = lessonStartedCount events lid ∧
    r.completed_students = lessonCompletedCount events lid ∧
    r.drop_off_rate = pyDropOffPercent (lessonStartedCount events lid) (lessonCompletedCount events lid)

/-- Store with one course, one enrolled student and two completing students
(a `course_completed` event without a matching `enrolled` event is accepted
by the ingestion adapter). -/
def storeRateOver : Store :=
  { courses := [1], lessons := [],
    events := [⟨1, 1, none, .enrolled, 0⟩, ⟨1, 1, none, .course_completed, 0⟩,
               ⟨1, 2, none, .course_completed, 0⟩] }

/-- Events of the spec scenario: one course, 10 enrolled events from 10
distinct students, 4 `course_completed` events from 4 distinct students. -/
def scenarioEvents : List Event :=
  ((List.range 10).map fun s =>
    { course_id := 1, student_id := s, lesson_id := none,
      event_type := .enrolled, occurred_at := 0 }) ++
  ((List.range 4).map fun s =>
    { course_id := 1, student_id := s, lesson_id := none,
      event_type := .course_completed, occurred_at := 0 })

/-- Events with 100 distinct enrolled students and 29 distinct completing
students for one course. -/
def events29of100 : List Event :=
  ((List.range 100).map fun s =>
    { course_id := 1, student_id := s, lesson_id := none,
      event_type := .enrolled, occurred_at := 0 }) ++
  ((List.range 29).map fun s =>
    { course_id := 1, student_id := s, lesson_id := none,
      event_type := .course_completed, occurred_at := 0 })

/-- Store with two courses and no events, for the fault-isolation analysis. -/
def storeTwoCourses : Store := { courses := [1, 2], lessons := [], events := [] }

/-- Store with one existing course (id 1) having one event; course id 99
does not exist. -/
def storeOneCourse : Store :=
  { courses := [1], lessons := [], events := [⟨1, 5, none, .enrolled, 0⟩] }

/-- Store for the progress-override witness: course 1 has two lessons, the
student completed one of them and has a `course_completed` event, so the
lesson ratio alone would give 50. -/
def storeOverride : Store :=
  { courses := [1], lessons := [⟨10, 1⟩, ⟨11, 1⟩],
    events := [⟨1, 5, some 10, .lesson_completed, 0⟩,
               ⟨1, 5, none, .course_completed, 0⟩] }

/-- Fault oracle failing exactly on entity id 2. -/
def failOnSecond : ℕ → Bool := fun c => c = 2

/-- Fault oracle that never fails. -/
def noFail : ℕ → Bool := fun _ => false

/-- Set of distinct students having at least one in-window `enrolled` event
for the course. -/
def enrolledStudents (events : List Event) (cid : ℕ) (sa : Option ℤ) : Finset ℕ :=
  ((events.filter (fun e => e.event_type = EventTypeEnum.enrolled ∧ e.course_id = cid ∧
    inWindow sa e)).map (·.student_id)).toFinset

/-- Set of distinct students having at least one in-window `course_completed`
event for the course. -/
def completedStudents (events : List Event) (cid : ℕ) (sa : Option ℤ) : Finset ℕ :=
  ((events.filter (fun e => e.event_type = EventTypeEnum.course_completed ∧ e.course_id = cid ∧
    inWindow sa e)).map (·.student_id)).toFinset

/-- Overlap of two slots is decidable (conjunction of integer comparisons). -/
instance slotOverlapDecidable (a b : Slot) : Decidable (slotOverlap a b) :=
  inferInstanceAs (Decidable (a.start_at < effective_end b ∧ b.start_at < effective_end a))

/-- Schedule with one teacher and three slots: `[0, 600)`, `[30, 60)`,
`[90, 120)`.  The first slot overlaps both others, but after sorting the
scan only compares neighbours, and `[30, 60)` ends before `[90, 120)`
starts. -/
def containedSlots : List Slot :=
  [⟨1, some 7, 0, some 600⟩, ⟨2, some 7, 30, some 60⟩, ⟨3, some 7, 90, some 120⟩]

/-- The spec's own example: two overlapping morning slots and a disjoint
later one (9:00–10:00, 9:30–10:30, 11:00–12:00, in seconds of day). -/
def morningSlots : List Slot :=
  [⟨1, some 1, 32400, some 36000⟩, ⟨2, some 1, 34200, some 37800⟩,
   ⟨3, some 1, 39600, some 43200⟩]

/-- Snapshot state holding one stale course row written at time 5. -/
def staleSnap : Snapshots :=
  { course := [{ course_id := 1, total_students := 0, completed_students := 0,
                 completion_rate := 0, updated_at := 5 }],
    lesson := [] }

/-! ### Claim C1 — rate formula (code bug at the failing input 29/100)

The spec requires `rate == floor(numerator / denominator * 100)` for a
positive denominator.  The code computes `int(completed / total * 100)`
with binary64 floating point: at `completed = 29`, `total = 100` the
product `0.29 * 100` evaluates to `28.999999999999996` and truncation
yields `28`, while `floor(29 / 100 * 100) = 29`. -/

set_option maxRecDepth 10000 in
/-- C1: at 100 distinct enrolled students and 29 distinct completing
students the course funnel returns rate 28, while the exact
`floor(29 / 100 * 100)` the claim demands is 29; the zero-denominator
branch does return 0. -/
theorem course_rate_truncation_bug :
    calculate_course_metrics_for_period events29of100 1 none = (100, 29, 28) ∧
    29 * 100 / 100 = 29 ∧
    pyPercent 29 100 = 28 ∧
    pyPercent 3 0 = 0 := by
  refine ⟨by decide, by decide, by decide, by decide⟩

/-! ### Claim C5 — snapshot completion rate range (code bug)

`completion_rate` is documented in models.py line 81 as an integer percent
0–100, but nothing clamps it: a store in which more distinct students
completed than enrolled (accepted by the ingestion adapter, which never
requires an `enrolled` event first) yields a rate above 100. -/

/-- C5: after a pass over a store with 1 enrolled and 2 completing students
the snapshot row for the course carries `completion_rate = 200`, violating
the documented 0–100 range. -/
theorem snapshot_rate_exceeds_100 :
    (run_once storeRateOver 0 ⟨[], []⟩).course =
      [{ course_id := 1, total_students := 1, completed_students := 2,
         completion_rate := 200, updated_at := 0 }] ∧
    ¬((200 : ℤ) ≤ 100) := by
  refine ⟨by decide, by decide⟩

/-! ### Claim C7 — student status classifier -/

/-- C7: the classifier returns `no_data` exactly when `last_seen` is
absent; otherwise, with `days_inactive` the flooring whole-day difference,
it returns `active` for at most 7 days, `inactive` for 8–30 days and
`risk` beyond 30 days; in particular exactly 7 days is `active` and
exactly 30 days is `inactive`. -/
theorem get_student_status_matches_thresholds :
    (∀ now : ℤ, get_student_status none now = .no_data) ∧
    (∀ ls now : ℤ,
      (Int.fdiv (now - ls) 86400 ≤ 7 → get_student_status (some ls) now = .active) ∧
      (7 < Int.fdiv (now - ls) 86400 → Int.fdiv (now - ls) 86400 ≤ 30 →
        get_student_status (some ls) now = .inactive) ∧
      (30 < Int.fdiv (now - ls) 86400 → get_student_status (some ls) now = .risk)) ∧
    (∀ now : ℤ,
      get_student_status (some (now - 7 * 86400)) now = .active ∧
      get_student_status (some (now - 8 * 86400)) now = .inactive ∧
      get_student_status (some (now - 30 * 86400)) now = .inactive ∧
      get_student_status (some (now - 31 * 86400)) now = .risk) := by
  refine ⟨fun now => rfl, fun ls now => ⟨?_, ?_, ?_⟩, fun now => ⟨?_, ?_, ?_, ?_⟩⟩
  · intro h
    simp only [get_student_status]
    rw [if_pos h]
  · intro h1 h2
    simp only [get_student_status]
    rw [if_neg (by omega), if_pos h2]
  · intro h
    simp only [get_student_status]
    rw [if_neg (by omega), if_neg (by omega)]
  · have e : now - (now - 7 * 86400) = 604800 := by ring
    simp only [get_student_status, e]
    decide
  · have e : now - (now - 8 * 86400) = 691200 := by ring
    simp only [get_student_status, e]
    decide
  · have e : now - (now - 30 * 86400) = 2592000 := by ring
    simp only [get_student_status, e]
    decide
  · have e : now - (now - 31 * 86400) = 2678400 := by ring
    simp only [get_student_status, e]
    decide

/-- Witness for C7: seven whole days of inactivity classify as `active`,
thirty-one as `risk`, at concrete timestamps. -/
theorem get_student_status_matches_thresholds_witness :
    get_student_status (some 0) 604800 = .active ∧
    get_student_status (some 0) 2678401 = .risk :=
  ⟨(get_student_status_matches_thresholds.2.1 0 604800).1 (by decide),
   (get_student_status_matches_thresholds.2.1 0 2678401).2.2 (by decide)⟩

/-! ### Claim C4 — not-found handling

The period calculators themselves perform no existence check: an unknown
identifier yields `(0, 0, 0)`, indistinguishable from an existing course
with no in-window events.  The typed not-found condition is produced by the
route handlers, which look the entity up and abort with 404 before invoking
the calculator. -/

/-- Counterexample to C4: course id 99 does not exist in `storeOneCourse`,
yet the funnel calculator returns zeroed metrics for it — the same value an
existing course with zero in-window events gets — rather than propagating a
not-found condition. -/
theorem period_calculator_zeroes_for_unknown :
    calculate_course_metrics_for_period storeOneCourse.events 99 none = (0, 0, 0) ∧
    99 ∉ storeOneCourse.courses ∧
    calculate_course_metrics_for_period storeOneCourse.events 1 (some 10) = (0, 0, 0) := by
  refine ⟨by decide, by decide, by decide⟩

/-- Helper: a filter with an unsatisfied predicate counts zero students. -/
theorem distinctStudents_eq_zero {events : List Event} {p : Event → Bool}
    (h : ∀ e ∈ events, ¬ p e = true) : distinctStudents events p = 0 := by
  unfold distinctStudents
  rw [List.filter_eq_nil_iff.mpr h]
  rfl

/-- C4 (amended): the `course_detail` route returns the not-found signal
(`none`, HTTP 404) for every identifier not naming an existing course, and
for an existing course with no in-window events it returns the valid zero
funnel `(0, 0, 0)`; the calculator itself never raises not-found. -/
theorem course_detail_handles_not_found :
    ∀ (store : Store) (cid : ℕ) (sa : Option ℤ),
      (cid ∉ store.courses → course_detail store cid sa = none) ∧
      (cid ∈ store.courses →
        (∀ e ∈ store.events, ¬(e.course_id = cid ∧ inWindow sa e = true)) →
        course_detail store cid sa = some (0, 0, 0)) := by
  intro store cid sa
  constructor
  · intro h
    simp only [course_detail, if_neg h]
  · intro hmem h
    have h1 : distinctStudents store.events
        (fun e => decide (e.event_type = EventTypeEnum.enrolled ∧ e.course_id = cid ∧
          inWindow sa e = true)) = 0 := by
      refine distinctStudents_eq_zero ?_
      intro e he hp
      rw [decide_eq_true_eq] at hp
      exact h e he ⟨hp.2.1, hp.2.2⟩
    have h2 : distinctStudents store.events
        (fun e => decide (e.event_type = EventTypeEnum.course_completed ∧ e.course_id = cid ∧
          inWindow sa e = true)) = 0 := by
      refine distinctStudents_eq_zero ?_
      intro e he hp
      rw [decide_eq_true_eq] at hp
      exact h e he ⟨hp.2.1, hp.2.2⟩
    simp only [course_detail, if_pos hmem, calculate_course_metrics_for_period, h1, h2]
    rfl

/-- Witness for C4 (amended): the route aborts with 404 for the unknown id
99, and returns the zero funnel for existing course 1 under a window that
excludes its only event. -/
theorem course_detail_handles_not_found_witness :
    course_detail storeOneCourse 99 none = none ∧
    course_detail storeOneCourse 1 (some 10) = some (0, 0, 0) :=
  ⟨(course_detail_handles_not_found storeOneCourse 99 none).1 (by decide),
   (course_detail_handles_not_found storeOneCourse 1 (some 10)).2 (by decide) (by decide)⟩

/-! ### Claim C2 — conflict scan counterexample

The adjacency scan only compares each slot with its immediate successor in
start order.  A slot that overlaps a non-adjacent slot (here: slot 1 spans
`[0, 600)` and contains slot 3 `[90, 120)`, while the in-between slot 2
`[30, 60)` is disjoint from slot 3) is not flagged. -/

/-- Counterexample to C2: slots 1 and 3 of the same teacher overlap, yet id
3 is not in the conflict set returned by the scan. -/
theorem conflict_scan_misses_overlap :
    slotOverlap ⟨1, some 7, 0, some 600⟩ ⟨3, some 7, 90, some 120⟩ ∧
    (⟨1, some 7, 0, some 600⟩ : Slot) ∈ containedSlots ∧
    (⟨3, some 7, 90, some 120⟩ : Slot) ∈ containedSlots ∧
    3 ∉ find_conflicts containedSlots ∧
    1 ∈ find_conflicts containedSlots := by
  refine ⟨by decide, by decide, by decide, by decide, by decide⟩

/-! ### Claim C3 — fault isolation counterexample

The worker has no per-entity exception handling and a single commit per
phase: a failure on one course aborts the whole pass before the commit, so
even the already-computed metrics of other courses are discarded. -/

/-- Counterexample to C3: with a fault on course 2 only, the pass leaves
the snapshot exactly as it was — course 1 (processed successfully before
the failure) gets no row, although the claim promises its upsert would be
committed independently. -/
theorem pass_failure_aborts_others :
    run_once_f failOnSecond noFail storeTwoCourses 0 ⟨[], []⟩ = ⟨[], []⟩ ∧
    1 ∈ storeTwoCourses.courses ∧
    failOnSecond 1 = false ∧
    getCourseRow (run_once_f failOnSecond noFail storeTwoCourses 0 ⟨[], []⟩).course 1 = none := by
  refine ⟨by decide, by decide, by decide, by decide⟩

/-- Helper: the course phase raises as soon as any listed course fails. -/
theorem ccmf_error_of_exists (failOn : ℕ → Bool) (events : List Event) (now : ℤ) :
    ∀ (cs : List ℕ) (tbl : List CourseMetrics),
      (∃ c ∈ cs, failOn c = true) →
      calculate_course_metrics_f failOn events now cs tbl = .error () := by
  intro cs
  induction cs with
  | nil =>
    intro tbl h
    obtain ⟨c, hc, _⟩ := h
    exact absurd hc (List.not_mem_nil c)
  | cons c cs ih =>
    intro tbl h
    simp only [calculate_course_metrics_f]
    by_cases hf : failOn c = true
    · rw [if_pos hf]
    · rw [if_neg hf]
      obtain ⟨d, hd, hfd⟩ := h
      rcases List.mem_cons.mp hd with rfl | hd'
      · exact absurd hfd hf
      · exact ih _ ⟨d, hd', hfd⟩

/-- Helper: with no failing course the faulty course phase computes exactly
the plain course phase. -/
theorem ccmf_ok_of_forall (failOn : ℕ → Bool) (events : List Event) (now : ℤ) :
    ∀ (cs : List ℕ) (tbl : List CourseMetrics),
      (∀ c ∈ cs, failOn c = false) →
      calculate_course_metrics_f failOn events now cs tbl =
        .ok (calculate_course_metrics events now cs tbl) := by
  intro cs
  induction cs with
  | nil => intro tbl _; rfl
  | cons c cs ih =>
    intro tbl h
    have hf : ¬ failOn c = true := by simp [h c (List.mem_cons_self c cs)]
    simp only [calculate_course_metrics_f, calculate_course_metrics, if_neg hf]
    exact ih _ (fun d hd => h d (List.mem_cons_of_mem c hd))

/-- Helper: the lesson phase raises as soon as any listed lesson fails. -/
theorem clmf_error_of_exists (failOn : ℕ → Bool) (events : List Event) (now : ℤ) :
    ∀ (ls : List Lesson) (tbl : List LessonMetrics),
      (∃ l ∈ ls, failOn l.id = true) →
      calculate_lesson_metrics_f failOn events now ls tbl = .error () := by
  intro ls
  induction ls with
  | nil =>
    intro tbl h
    obtain ⟨l, hl, _⟩ := h
    exact absurd hl (List.not_mem_nil l)
  | cons l ls ih =>
    intro tbl h
    simp only [calculate_lesson_metrics_f]
    by_cases hf : failOn l.id = true
    · rw [if_pos hf]
    · rw [if_neg hf]
      obtain ⟨d, hd, hfd⟩ := h
      rcases List.mem_cons.mp hd with rfl | hd'
      · exact absurd hfd hf
      · exact ih _ ⟨d, hd', hfd⟩

/-- Helper: with no failing lesson the faulty lesson phase computes exactly
the plain lesson phase. -/
theorem clmf_ok_of_forall (failOn : ℕ → Bool) (events : List Event) (now : ℤ) :
    ∀ (ls : List Lesson) (tbl : List LessonMetrics),
      (∀ l ∈ ls, failOn l.id = false) →
      calculate_lesson_metrics_f failOn events now ls tbl =
        .ok (calculate_lesson_metrics events now ls tbl) := by
  intro ls
  induction ls with
  | nil => intro tbl _; rfl
  | cons l ls ih =>
    intro tbl h
    have hf : ¬ failOn l.id = true := by simp [h l (List.mem_cons_self l ls)]
    simp only [calculate_lesson_metrics_f, calculate_lesson_metrics, if_neg hf]
    exact ih _ (fun d hd => h d (List.mem_cons_of_mem l hd))

/-- C3 (amended): failure isolation is per phase, not per entity, and each
phase commits as one unit.  A fault while computing any course's metrics
aborts the remaining entities of the pass and discards every pending
upsert, leaving the committed snapshot state exactly unchanged; a fault
while computing any lesson's metrics (with the course phase clean) keeps
the already committed course-phase updates in full but discards every
lesson upsert of the pass, leaving the lesson table unchanged — which
also shows the commit unit is the phase, not the whole pass; when no
entity faults, the pass is the plain two-phase recomputation. -/
theorem run_once_phase_atomicity :
    ∀ (failC failL : ℕ → Bool) (store : Store) (now : ℤ) (snap : Snapshots),
      ((∃ c ∈ store.courses, failC c = true) →
        run_once_f failC failL store now snap = snap) ∧
      ((∀ c ∈ store.courses, failC c = false) →
        (∃ l ∈ store.lessons, failL l.id = true) →
        run_once_f failC failL store now snap =
          { snap with
            course := calculate_course_metrics store.events now store.courses snap.course }) ∧
      ((∀ c ∈ store.courses, failC c = false) →
        (∀ l ∈ store.lessons, failL l.id = false) →
        run_once_f failC failL store now snap = run_once store now snap) := by
  intro failC failL store now snap
  refine ⟨?_, ?_, ?_⟩
  · intro h
    unfold run_once_f
    rw [ccmf_error_of_exists failC store.events now store.courses snap.course h]
  · intro hc hl
    unfold run_once_f
    rw [ccmf_ok_of_forall failC store.events now store.courses snap.course hc,
      clmf_error_of_exists failL store.events now store.lessons snap.lesson hl]
  · intro hc hl
    unfold run_once_f
    rw [ccmf_ok_of_forall failC store.events now store.courses snap.course hc,
      clmf_ok_of_forall failL store.events now store.lessons snap.lesson hl]
    rfl

/-- Witness for C3 (amended): a fault on course 2 leaves the empty snapshot
state untouched; a fault on lesson 10 (course phase clean) keeps the
committed course updates and leaves the lesson table empty; and the
fault-free pass equals the plain pass. -/
theorem run_once_phase_atomicity_witness :
    run_once_f failOnSecond noFail storeTwoCourses 5 ⟨[], []⟩ = ⟨[], []⟩ ∧
    run_once_f noFail (fun l => decide (l = 10)) storeOverride 5 ⟨[], []⟩ =
      { course := calculate_course_metrics storeOverride.events 5 storeOverride.courses [],
        lesson := [] } ∧
    run_once_f noFail noFail storeOneCourse 5 ⟨[], []⟩ = run_once storeOneCourse 5 ⟨[], []⟩ :=
  ⟨(run_once_phase_atomicity failOnSecond noFail storeTwoCourses 5 ⟨[], []⟩).1 (by decide),
   (run_once_phase_atomicity noFail (fun l => decide (l = 10)) storeOverride 5 ⟨[], []⟩).2.1
     (by decide) (by decide),
   (run_once_phase_atomicity noFail noFail storeOneCourse 5 ⟨[], []⟩).2.2
     (by decide) (by decide)⟩

/-- Helper: membership in a stable insertion. -/
theorem mem_insertByStart (x s : Slot) :
    ∀ l : List Slot, x ∈ insertByStart s l ↔ x = s ∨ x ∈ l := by
  intro l
  induction l with
  | nil => simp [insertByStart]
  | cons t ts ih =>
    simp only [insertByStart]
    by_cases h : t.start_at ≤ s.start_at
    · rw [if_pos h]
      simp only [List.mem_cons, ih]
      tauto
    · rw [if_neg h]
      simp only [List.mem_cons]

/-- Helper: membership through the sorting fold. -/
theorem mem_foldl_insertByStart (x : Slot) :
    ∀ (l acc : List Slot),
      x ∈ l.foldl (fun acc s => insertByStart s acc) acc ↔ x ∈ acc ∨ x ∈ l := by
  intro l
  induction l with
  | nil => simp
  | cons s ss ih =>
    intro acc
    simp only [List.foldl_cons, ih, mem_insertByStart, List.mem_cons]
    tauto

/-- Helper: sorting by start preserves membership. -/
theorem mem_sortByStart (x : Slot) (l : List Slot) : x ∈ sortByStart l ↔ x ∈ l := by
  unfold sortByStart
  rw [mem_foldl_insertByStart]
  simp

/-- Helper: the adjacency scan flags both slots of any adjacent overlapping
pair of the list it scans. -/
theorem adjacent_conflicts_mem :
    ∀ (l : List Slot) (i : ℕ) (a b : Slot),
      l[i]? = some a → l[i + 1]? = some b → b.start_at < effective_end a →
      a.id ∈ adjacent_conflicts l ∧ b.id ∈ adjacent_conflicts l := by
  intro l
  induction l with
  | nil => intro i a b ha _ _; simp at ha
  | cons x xs ih =>
    intro i a b ha hb hov
    cases xs with
    | nil =>
      cases i with
      | zero => simp at hb
      | succ j => simp at ha
    | cons y ys =>
      cases i with
      | zero =>
        simp only [List.getElem?_cons_zero, Option.some.injEq] at ha
        have hb' : y = b := by
          simpa using hb
        subst ha
        subst hb'
        simp only [adjacent_conflicts, if_pos hov]
        constructor
        · exact List.mem_append_left _ (by simp)
        · exact List.mem_append_left _ (by simp)
      | succ j =>
        have ha' : (y :: ys)[j]? = some a := by simpa using ha
        have hb' : (y :: ys)[j + 1]? = some b := by simpa using hb
        have hm := ih j a b ha' hb' hov
        constructor
        · exact List.mem_append_right _ hm.1
        · exact List.mem_append_right _ hm.2

/-- C2 (amended): the scan flags both slots of every *adjacent* overlapping
pair of a teacher's start-sorted slots.  Every such adjacent overlap is
reported for both ids, but a slot overlapping only non-adjacent slots of
the teacher (e.g. a long slot containing two later, mutually disjoint
slots) can be missed, as `conflict_scan_misses_overlap` shows. -/
theorem find_conflicts_flags_adjacent_overlaps :
    ∀ (slots : List Slot) (t : ℕ) (i : ℕ) (a b : Slot),
      (sortByStart (slotsForTeacher slots t))[i]? = some a →
      (sortByStart (slotsForTeacher slots t))[i + 1]? = some b →
      b.start_at < effective_end a →
      a.id ∈ find_conflicts slots ∧ b.id ∈ find_conflicts slots := by
  intro slots t i a b ha hb hov
  have hmem := adjacent_conflicts_mem _ i a b ha hb hov
  have hat : a ∈ sortByStart (slotsForTeacher slots t) := by
    have := List.getElem?_eq_some.mp ha
    obtain ⟨hlt, hget⟩ := this
    exact hget ▸ List.getElem_mem hlt
  have hat' : a ∈ slotsForTeacher slots t := (mem_sortByStart a _).mp hat
  have ht : t ∈ teacher_ids slots := by
    unfold slotsForTeacher at hat'
    rw [List.mem_filter] at hat'
    obtain ⟨hmemslots, hteq⟩ := hat'
    rw [decide_eq_true_eq] at hteq
    unfold teacher_ids
    rw [List.mem_dedup, List.mem_filterMap]
    exact ⟨a, hmemslots, hteq⟩
  unfold find_conflicts
  rw [List.mem_flatMap, List.mem_flatMap]
  exact ⟨⟨t, ht, hmem.1⟩, ⟨t, ht, hmem.2⟩⟩

/-- Witness for C2 (amended): in the spec's example schedule the two
overlapping morning slots are both flagged. -/
theorem find_conflicts_flags_adjacent_overlaps_witness :
    1 ∈ find_conflicts morningSlots ∧ 2 ∈ find_conflicts morningSlots :=
  find_conflicts_flags_adjacent_overlaps morningSlots 1 0
    ⟨1, some 1, 32400, some 36000⟩ ⟨2, some 1, 34200, some 37800⟩
    (by decide) (by decide) (by decide)

/-! ### Claim C9 — distinct-student funnel semantics -/

set_option maxRecDepth 4000 in
/-- C9: the windowed course funnel counts each student at most once:
`enrolled_count` is the cardinality of the set of distinct students having
at least one in-window `enrolled` event for the course, `completed_count`
the same for `course_completed`; on the spec scenario (10 enrolled events
from 10 distinct students, 4 completions from 4 distinct students) it
returns `(10, 4, 40)`. -/
theorem course_funnel_distinct_semantics :
    (∀ (events : List Event) (cid : ℕ) (sa : Option ℤ),
      ((calculate_course_metrics_for_period events cid sa).1 =
          (enrolledStudents events cid sa).card ∧
        (calculate_course_metrics_for_period events cid sa).2.1 =
          (completedStudents events cid sa).card) ∧
      (∀ s : ℕ, s ∈ enrolledStudents events cid sa ↔
        ∃ e ∈ events, e.student_id = s ∧ e.event_type = EventTypeEnum.enrolled ∧
          e.course_id = cid ∧ inWindow sa e = true) ∧
      (∀ s : ℕ, s ∈ completedStudents events cid sa ↔
        ∃ e ∈ events, e.student_id = s ∧ e.event_type = EventTypeEnum.course_completed ∧
          e.course_id = cid ∧ inWindow sa e = true)) ∧
    calculate_course_metrics_for_period scenarioEvents 1 none = (10, 4, 40) := by
  constructor
  · intro events cid sa
    refine ⟨⟨?_, ?_⟩, ?_, ?_⟩
    · simp only [calculate_course_metrics_for_period, distinctStudents, enrolledStudents]
      exact (List.card_toFinset _).symm
    · simp only [calculate_course_metrics_for_period, distinctStudents, completedStudents]
      exact (List.card_toFinset _).symm
    · intro s
      simp only [enrolledStudents, List.mem_toFinset, List.mem_map, List.mem_filter,
        decide_eq_true_eq]
      constructor
      · rintro ⟨e, ⟨he, hp⟩, rfl⟩
        exact ⟨e, he, rfl, hp⟩
      · rintro ⟨e, he, hs, hp⟩
        exact ⟨e, ⟨he, hp⟩, hs⟩
    · intro s
      simp only [completedStudents, List.mem_toFinset, List.mem_map, List.mem_filter,
        decide_eq_true_eq]
      constructor
      · rintro ⟨e, ⟨he, hp⟩, rfl⟩
        exact ⟨e, he, rfl, hp⟩
      · rintro ⟨e, he, hs, hp⟩
        exact ⟨e, ⟨he, hp⟩, hs⟩
  · decide

/-! ### Claim C8 — idempotence machinery -/

/-- Helper: updating a course row with the values it already holds is the
identity. -/
theorem courseRow_update_id (r : CourseMetrics) (ts cs : ℕ) (rate : ℤ)
    (h1 : r.total_students = ts) (h2 : r.completed_students = cs)
    (h3 : r.completion_rate = rate) :
    { r with total_students := ts, completed_students := cs,
             completion_rate := rate } = r := by
  cases r
  cases h1
  cases h2
  cases h3
  rfl

/-- Helper: updating a lesson row with the values it already holds is the
identity. -/
theorem lessonRow_update_id (r : LessonMetrics) (ss cs : ℕ) (rate : ℤ)
    (h1 : r.started_students = ss) (h2 : r.completed_students = cs)
    (h3 : r.drop_off_rate = rate) :
    { r with started_students := ss, completed_students := cs,
             drop_off_rate := rate } = r := by
  cases r
  cases h1
  cases h2
  cases h3
  rfl

/-- Helper: after upserting a course its table is refreshed for that id. -/
theorem upsertCourse_self (events : List Event) (now : ℤ) (tbl : List CourseMetrics)
    (cid : ℕ) : CourseTableUpdated events cid (upsertCourseMetrics events now tbl cid) := by
  simp only [upsertCourseMetrics, CourseTableUpdated]
  by_cases hany : tbl.any (fun r => decide (r.course_id = cid)) = true
  · rw [if_pos hany]
    constructor
    · obtain ⟨r, hr, hrc⟩ := List.any_eq_true.mp hany
      rw [decide_eq_true_eq] at hrc
      exact ⟨_, List.mem_map.mpr ⟨r, hr, rfl⟩, by simp [hrc]⟩
    · intro r' hr' hc'
      obtain ⟨r, hr, rfl⟩ := List.mem_map.mp hr'
      by_cases hrc : r.course_id = cid
      · simp [hrc]
      · rw [if_neg hrc] at hc' ⊢
        exact absurd hc' hrc
  · rw [if_neg hany]
    constructor
    · exact ⟨_, List.mem_append_right _ (List.mem_singleton_self _), rfl⟩
    · intro r' hr' hc'
      rcases List.mem_append.mp hr' with h | h
      · rw [List.any_eq_true] at hany
        exact absurd ⟨r', h, by rw [decide_eq_true_eq]; exact hc'⟩ hany
      · rw [List.mem_singleton] at h
        subst h
        exact ⟨rfl, rfl, rfl⟩

/-- Helper: an upsert for any course preserves refreshedness for a course. -/
theorem upsertCourse_preserves (events : List Event) (now : ℤ) (tbl : List CourseMetrics)
    (cid cid' : ℕ) (h : CourseTableUpdated events cid tbl) :
    CourseTableUpdated events cid (upsertCourseMetrics events now tbl cid') := by
  by_cases hsame : cid' = cid
  · subst hsame
    exact upsertCourse_self events now tbl cid'
  · simp only [upsertCourseMetrics, CourseTableUpdated]
    obtain ⟨⟨r0, hr0, hr0c⟩, hall⟩ := h
    by_cases hany : tbl.any (fun r => decide (r.course_id = cid')) = true
    · rw [if_pos hany]
      constructor
      · refine ⟨_, List.mem_map.mpr ⟨r0, hr0, rfl⟩, ?_⟩
        have : ¬ r0.course_id = cid' := by rw [hr0c]; exact fun hx => hsame hx.symm
        rw [if_neg this]
        exact hr0c
      · intro r' hr' hc'
        obtain ⟨r, hr, rfl⟩ := List.mem_map.mp hr'
        by_cases hrc : r.course_id = cid'
        · rw [if_pos hrc] at hc' ⊢
          simp only [] at hc'
          exact absurd (hc' ▸ hrc) (fun hx => hsame (hrc.symm.trans hc'))
        · rw [if_neg hrc] at hc' ⊢
          exact hall r hr hc'
    · rw [if_neg hany]
      constructor
      · exact ⟨r0, List.mem_append_left _ hr0, hr0c⟩
      · intro r' hr' hc'
        rcases List.mem_append.mp hr' with hm | hm
        · exact hall r' hm hc'
        · rw [List.mem_singleton] at hm
          subst hm
          exact absurd hc' hsame

/-- Helper: upserting a course whose table is already refreshed for it
changes nothing (the update writes back the same values). -/
theorem upsertCourse_of_updated (events : List Event) (now : ℤ) (tbl : List CourseMetrics)
    (cid : ℕ) (h : CourseTableUpdated events cid tbl) :
    upsertCourseMetrics events now tbl cid = tbl := by
  obtain ⟨⟨r0, hr0, hr0c⟩, hall⟩ := h
  have hany : tbl.any (fun r => decide (r.course_id = cid)) = true :=
    List.any_eq_true.mpr ⟨r0, hr0, by rw [decide_eq_true_eq]; exact hr0c⟩
  simp only [upsertCourseMetrics, if_pos hany]
  have : ∀ r ∈ tbl,
      (if r.course_id = cid then
        { r with total_students := courseEnrolledCount events cid,
                 completed_students := courseCompletedCount events cid,
                 completion_rate := (pyPercent (courseCompletedCount events cid)
                   (courseEnrolledCount events cid) : ℤ) }
      else r) = r := by
    intro r hr
    by_cases hrc : r.course_id = cid
    · rw [if_pos hrc]
      obtain ⟨h1, h2, h3⟩ := hall r hr hrc
      exact courseRow_update_id r _ _ _ h1 h2 h3
    · rw [if_neg hrc]
  rw [List.map_congr_left this, List.map_id']

/-- Helper: the course phase leaves a refreshed course refreshed. -/
theorem ccm_preserves_updated (events : List Event) (now : ℤ) :
    ∀ (cs : List ℕ) (tbl : List CourseMetrics) (cid : ℕ),
      CourseTableUpdated events cid tbl →
      CourseTableUpdated events cid (calculate_course_metrics events now cs tbl) := by
  intro cs
  induction cs with
  | nil => intro tbl cid h; exact h
  | cons c cs ih =>
    intro tbl cid h
    exact ih _ cid (upsertCourse_preserves events now tbl cid c h)

/-- Helper: after the course phase every listed course is refreshed. -/
theorem ccm_updated_of_mem (events : List Event) (now : ℤ) :
    ∀ (cs : List ℕ) (tbl : List CourseMetrics) (cid : ℕ), cid ∈ cs →
      CourseTableUpdated events cid (calculate_course_metrics events now cs tbl) := by
  intro cs
  induction cs with
  | nil => intro tbl cid h; exact absurd h (List.not_mem_nil cid)
  | cons c cs ih =>
    intro tbl cid h
    rcases List.mem_cons.mp h with rfl | h'
    · exact ccm_preserves_updated events now cs _ cid (upsertCourse_self events now tbl cid)
    · exact ih _ cid h'

/-- Helper: the course phase is the identity on a table already refreshed
for every listed course (for any pass timestamp). -/
theorem ccm_fixed (events : List Event) (now : ℤ) :
    ∀ (cs : List ℕ) (tbl : List CourseMetrics),
      (∀ c ∈ cs, CourseTableUpdated events c tbl) →
      calculate_course_metrics events now cs tbl = tbl := by
  intro cs
  induction cs with
  | nil => intro tbl _; rfl
  | cons c cs ih =>
    intro tbl h
    have hid := upsertCourse_of_updated events now tbl c (h c (List.mem_cons_self c cs))
    simp only [calculate_course_metrics, hid]
    exact ih tbl (fun d hd => h d (List.mem_cons_of_mem c hd))

/-- Helper: after upserting a lesson its table is refreshed for that id. -/
theorem upsertLesson_self (events : List Event) (now : ℤ) (tbl : List LessonMetrics)
    (lid : ℕ) : LessonTableUpdated events lid (upsertLessonMetrics events now tbl lid) := by
  simp only [upsertLessonMetrics, LessonTableUpdated]
  by_cases hany : tbl.any (fun r => decide (r.lesson_id = lid)) = true
  · rw [if_pos hany]
    constructor
    · obtain ⟨r, hr, hrc⟩ := List.any_eq_true.mp hany
      rw [decide_eq_true_eq] at hrc
      exact ⟨_, List.mem_map.mpr ⟨r, hr, rfl⟩, by simp [hrc]⟩
    · intro r' hr' hc'
      obtain ⟨r, hr, rfl⟩ := List.mem_map.mp hr'
      by_cases hrc : r.lesson_id = lid
      · simp [hrc]
      · rw [if_neg hrc] at hc' ⊢
        exact absurd hc' hrc
  · rw [if_neg hany]
    constructor
    · exact ⟨_, List.mem_append_right _ (List.mem_singleton_self _), rfl⟩
    · intro r' hr' hc'
      rcases List.mem_append.mp hr' with h | h
      · rw [List.any_eq_true] at hany
        exact absurd ⟨r', h, by rw [decide_eq_true_eq]; exact hc'⟩ hany
      · rw [List.mem_singleton] at h
        subst h
        exact ⟨rfl, rfl, rfl⟩

/-- Helper: an upsert for any lesson preserves refreshedness for a lesson. -/
theorem upsertLesson_preserves (events : List Event) (now : ℤ) (tbl : List LessonMetrics)
    (lid lid' : ℕ) (h : LessonTableUpdated events lid tbl) :
    LessonTableUpdated events lid (upsertLessonMetrics events now tbl lid') := by
  by_cases hsame : lid' = lid
  · subst hsame
    exact upsertLesson_self events now tbl lid'
  · simp only [upsertLessonMetrics, LessonTableUpdated]
    obtain ⟨⟨r0, hr0, hr0c⟩, hall⟩ := h
    by_cases hany : tbl.any (fun r => decide (r.lesson_id = lid')) = true
    · rw [if_pos hany]
      constructor
      · refine ⟨_, List.mem_map.mpr ⟨r0, hr0, rfl⟩, ?_⟩
        have : ¬ r0.lesson_id = lid' := by rw [hr0c]; exact fun hx => hsame hx.symm
        rw [if_neg this]
        exact hr0c
      · intro r' hr' hc'
        obtain ⟨r, hr, rfl⟩ := List.mem_map.mp hr'
        by_cases hrc : r.lesson_id = lid'
        · rw [if_pos hrc] at hc' ⊢
          simp only [] at hc'
          exact absurd (hc' ▸ hrc) (fun hx => hsame (hrc.symm.trans hc'))
        · rw [if_neg hrc] at hc' ⊢
          exact hall r hr hc'
    · rw [if_neg hany]
      constructor
      · exact ⟨r0, List.mem_append_left _ hr0, hr0c⟩
      · intro r' hr' hc'
        rcases List.mem_append.mp hr' with hm | hm
        · exact hall r' hm hc'
        · rw [List.mem_singleton] at hm
          subst hm
          exact absurd hc' hsame

/-- Helper: upserting a lesson whose table is already refreshed for it
changes nothing. -/
theorem upsertLesson_of_updated (events : List Event) (now : ℤ) (tbl : List LessonMetrics)
    (lid : ℕ) (h : LessonTableUpdated events lid tbl) :
    upsertLessonMetrics events now tbl lid = tbl := by
  obtain ⟨⟨r0, hr0, hr0c⟩, hall⟩ := h
  have hany : tbl.any (fun r => decide (r.lesson_id = lid)) = true :=
    List.any_eq_true.mpr ⟨r0, hr0, by rw [decide_eq_true_eq]; exact hr0c⟩
  simp only [upsertLessonMetrics, if_pos hany]
  have : ∀ r ∈ tbl,
      (if r.lesson_id = lid then
        { r with started_students := lessonStartedCount events lid,
                 completed_students := lessonCompletedCount events lid,
                 drop_off_rate := pyDropOffPercent (lessonStartedCount events lid)
                   (lessonCompletedCount events lid) }
      else r) = r := by
    intro r hr
    by_cases hrc : r.lesson_id = lid
    · rw [if_pos hrc]
      obtain ⟨h1, h2, h3⟩ := hall r hr hrc
      exact lessonRow_update_id r _ _ _ h1 h2 h3
    · rw [if_neg hrc]
  rw [List.map_congr_left this, List.map_id']

/-- Helper: the lesson phase leaves a refreshed lesson refreshed. -/
theorem clm_preserves_updated (events : List Event) (now : ℤ) :
    ∀ (ls : List Lesson) (tbl : List LessonMetrics) (lid : ℕ),
      LessonTableUpdated events lid tbl →
      LessonTableUpdated events lid (calculate_lesson_metrics events now ls tbl) := by
  intro ls
  induction ls with
  | nil => intro tbl lid h; exact h
  | cons l ls ih =>
    intro tbl lid h
    exact ih _ lid (upsertLesson_preserves events now tbl lid l.id h)

/-- Helper: after the lesson phase every listed lesson is refreshed. -/
theorem clm_updated_of_mem (events : List Event) (now : ℤ) :
    ∀ (ls : List Lesson) (tbl : List LessonMetrics) (l : Lesson), l ∈ ls →
      LessonTableUpdated events l.id (calculate_lesson_metrics events now ls tbl) := by
  intro ls
  induction ls with
  | nil => intro tbl l h; exact absurd h (List.not_mem_nil l)
  | cons l0 ls ih =>
    intro tbl l h
    rcases List.mem_cons.mp h with rfl | h'
    · exact clm_preserves_updated events now ls _ l.id (upsertLesson_self events now tbl l.id)
    · exact ih _ l h'

/-- Helper: the lesson phase is the identity on a table already refreshed
for every listed lesson (for any pass timestamp). -/
theorem clm_fixed (events : List Event) (now : ℤ) :
    ∀ (ls : List Lesson) (tbl : List LessonMetrics),
      (∀ l ∈ ls, LessonTableUpdated events l.id tbl) →
      calculate_lesson_metrics events now ls tbl = tbl := by
  intro ls
  induction ls with
  | nil => intro tbl _; rfl
  | cons l ls ih =>
    intro tbl h
    have hid := upsertLesson_of_updated events now tbl l.id (h l (List.mem_cons_self l ls))
    simp only [calculate_lesson_metrics, hid]
    exact ih tbl (fun d hd => h d (List.mem_cons_of_mem l hd))

/-- C8: a second aggregation pass over an unchanged event store reproduces
the snapshot tables of the first pass exactly — for any pair of pass
timestamps and any prior snapshot state — because every count is a pure
function of the events, the second pass takes the update branch for every
entity and writes back identical values, and `updated_at` is only assigned
on row creation. -/
theorem run_once_idempotent :
    ∀ (store : Store) (now1 now2 : ℤ) (snap : Snapshots),
      run_once store now2 (run_once store now1 snap) = run_once store now1 snap := by
  intro store now1 now2 snap
  simp only [run_once, Snapshots.mk.injEq]
  refine ⟨?_, ?_⟩
  · exact ccm_fixed store.events now2 store.courses _
      (fun c hc => ccm_updated_of_mem store.events now1 store.courses snap.course c hc)
  · exact clm_fixed store.events now2 store.lessons _
      (fun l hl => clm_updated_of_mem store.events now1 store.lessons snap.lesson l hl)

/-! ### Claim C10 — frame of the upsert (updated_at only set on insert) -/

/-- Helper: the frame relation is reflexive. -/
theorem frameOK_refl {α : Type} (keyOf : α → ℕ) (stampOf : α → ℤ) (now : ℤ)
    (tbl : List α) : FrameOK keyOf stampOf now tbl tbl := by
  refine ⟨le_refl _, ?_, ?_⟩
  · intro i r r' h h'
    rw [h] at h'
    obtain rfl := Option.some.inj h'
    exact ⟨rfl, rfl⟩
  · intro i r' h hlen
    rw [List.getElem?_eq_none hlen] at h
    exact absurd h (by simp)

/-- Helper: the frame relation composes. -/
theorem frameOK_trans {α : Type} (keyOf : α → ℕ) (stampOf : α → ℤ) (now : ℤ)
    {t1 t2 t3 : List α} (h12 : FrameOK keyOf stampOf now t1 t2)
    (h23 : FrameOK keyOf stampOf now t2 t3) : FrameOK keyOf stampOf now t1 t3 := by
  obtain ⟨l12, p12, n12⟩ := h12
  obtain ⟨l23, p23, n23⟩ := h23
  refine ⟨l12.trans l23, ?_, ?_⟩
  · intro i r r'' h1 h3
    have hi : i < t2.length := lt_of_lt_of_le (List.getElem?_eq_some.mp h1).1 l12
    have hr' := List.getElem?_eq_getElem hi
    obtain ⟨k12, s12⟩ := p12 i r _ h1 hr'
    obtain ⟨k23, s23⟩ := p23 i _ r'' hr' h3
    exact ⟨k23.trans k12, s23.trans s12⟩
  · intro i r'' h3 hlen
    by_cases hi : i < t2.length
    · have hr' := List.getElem?_eq_getElem hi
      obtain ⟨_, s23⟩ := p23 i _ r'' hr' h3
      rw [s23]
      exact n12 i _ hr' hlen
    · exact n23 i r'' h3 (le_of_not_lt hi)

/-- Helper: one course upsert satisfies the frame relation — updated rows
keep position, key and `updated_at`; an inserted row is appended with
`updated_at = now`. -/
theorem upsertCourse_frame (events : List Event) (now : ℤ) (tbl : List CourseMetrics)
    (cid : ℕ) :
    FrameOK (fun r => r.course_id) (fun r => r.updated_at) now tbl
      (upsertCourseMetrics events now tbl cid) := by
  simp only [upsertCourseMetrics]
  by_cases hany : tbl.any (fun r => decide (r.course_id = cid)) = true
  · rw [if_pos hany]
    refine ⟨by rw [List.length_map], ?_, ?_⟩
    · intro i r r' h1 h2
      rw [List.getElem?_map, h1, Option.map_some'] at h2
      obtain rfl := Option.some.inj h2
      by_cases hrc : r.course_id = cid
      · rw [if_pos hrc]
        exact ⟨rfl, rfl⟩
      · rw [if_neg hrc]
        exact ⟨rfl, rfl⟩
    · intro i r' h2 hlen
      rw [List.getElem?_map, List.getElem?_eq_none hlen] at h2
      exact absurd h2 (by simp)
  · rw [if_neg hany]
    refine ⟨by simp, ?_, ?_⟩
    · intro i r r' h1 h2
      have hi : i < tbl.length := (List.getElem?_eq_some.mp h1).1
      rw [List.getElem?_append, if_pos hi, h1] at h2
      obtain rfl := Option.some.inj h2
      exact ⟨rfl, rfl⟩
    · intro i r' h2 hlen
      rw [List.getElem?_append, if_neg (by omega)] at h2
      rcases Nat.eq_zero_or_pos (i - tbl.length) with h0 | h0
      · rw [h0] at h2
        obtain rfl := Option.some.inj h2
        rfl
      · rw [List.getElem?_eq_none (by simp only [List.length_singleton]; omega)] at h2
        exact absurd h2 (by simp)

/-- Helper: one lesson upsert satisfies the frame relation. -/
theorem upsertLesson_frame (events : List Event) (now : ℤ) (tbl : List LessonMetrics)
    (lid : ℕ) :
    FrameOK (fun r => r.lesson_id) (fun r => r.updated_at) now tbl
      (upsertLessonMetrics events now tbl lid) := by
  simp only [upsertLessonMetrics]
  by_cases hany : tbl.any (fun r => decide (r.lesson_id = lid)) = true
  · rw [if_pos hany]
    refine ⟨by rw [List.length_map], ?_, ?_⟩
    · intro i r r' h1 h2
      rw [List.getElem?_map, h1, Option.map_some'] at h2
      obtain rfl := Option.some.inj h2
      by_cases hrc : r.lesson_id = lid
      · rw [if_pos hrc]
        exact ⟨rfl, rfl⟩
      · rw [if_neg hrc]
        exact ⟨rfl, rfl⟩
    · intro i r' h2 hlen
      rw [List.getElem?_map, List.getElem?_eq_none hlen] at h2
      exact absurd h2 (by simp)
  · rw [if_neg hany]
    refine ⟨by simp, ?_, ?_⟩
    · intro i r r' h1 h2
      have hi : i < tbl.length := (List.getElem?_eq_some.mp h1).1
      rw [List.getElem?_append, if_pos hi, h1] at h2
      obtain rfl := Option.some.inj h2
      exact ⟨rfl, rfl⟩
    · intro i r' h2 hlen
      rw [List.getElem?_append, if_neg (by omega)] at h2
      rcases Nat.eq_zero_or_pos (i - tbl.length) with h0 | h0
      · rw [h0] at h2
        obtain rfl := Option.some.inj h2
        rfl
      · rw [List.getElem?_eq_none (by simp only [List.length_singleton]; omega)] at h2
        exact absurd h2 (by simp)

/-- Helper: the whole course phase satisfies the frame relation. -/
theorem ccm_frame (events : List Event) (now : ℤ) :
    ∀ (cs : List ℕ) (tbl : List CourseMetrics),
      FrameOK (fun r => r.course_id) (fun r => r.updated_at) now tbl
        (calculate_course_metrics events now cs tbl) := by
  intro cs
  induction cs with
  | nil => intro tbl; exact frameOK_refl _ _ _ tbl
  | cons c cs ih =>
    intro tbl
    exact frameOK_trans _ _ _ (upsertCourse_frame events now tbl c) (ih _)

/-- Helper: the whole lesson phase satisfies the frame relation. -/
theorem clm_frame (events : List Event) (now : ℤ) :
    ∀ (ls : List Lesson) (tbl : List LessonMetrics),
      FrameOK (fun r => r.lesson_id) (fun r => r.updated_at) now tbl
        (calculate_lesson_metrics events now ls tbl) := by
  intro ls
  induction ls with
  | nil => intro tbl; exact frameOK_refl _ _ _ tbl
  | cons l ls ih =>
    intro tbl
    exact frameOK_trans _ _ _ (upsertLesson_frame events now tbl l.id) (ih _)

/-- C10: an aggregation pass updates snapshot rows in place — every row
present before the pass keeps its position, its natural key and its
`updated_at` timestamp (only the count and rate fields are written), while
every row the pass appends is freshly created with `updated_at = now`.
`updated_at` is therefore set only at row creation (models.py has a
creation `default` but no `onupdate`). -/
theorem snapshot_update_frame :
    ∀ (store : Store) (now : ℤ) (snap : Snapshots),
      FrameOK (fun r => r.course_id) (fun r => r.updated_at) now snap.course
        (run_once store now snap).course ∧
      FrameOK (fun r => r.lesson_id) (fun r => r.updated_at) now snap.lesson
        (run_once store now snap).lesson := by
  intro store now snap
  exact ⟨ccm_frame store.events now store.courses snap.course,
         clm_frame store.events now store.lessons snap.lesson⟩

/-- Witness for C10: refreshing a stale row (written at time 5) at pass
time 99 rewrites its counts but keeps `updated_at = 5`. -/
theorem snapshot_update_frame_witness :
    ∃ r' : CourseMetrics,
      (run_once storeOneCourse 99 staleSnap).course[0]? = some r' ∧
      r'.updated_at = 5 := by
  refine ⟨{ course_id := 1, total_students := 1, completed_students := 0,
            completion_rate := 0, updated_at := 5 }, by decide, ?_⟩
  have h := (snapshot_update_frame storeOneCourse 99 staleSnap).1
  exact ((h.2.1 0
    { course_id := 1, total_students := 0, completed_students := 0,
      completion_rate := 0, updated_at := 5 }
    { course_id := 1, total_students := 1, completed_students := 0,
      completion_rate := 0, updated_at := 5 } (by decide) (by decide)).2).trans rfl

/-! ### Claim C6 — course_completed forces progress 100

The override (app.py line 868-869) lifts any progress below 100 to 100;
progress can only fail to be exactly 100 if the lesson ratio exceeded 100,
which needs more distinct completed lesson ids than the course has lessons.
Under the referential integrity the ingestion adapter guarantees (an
event's lesson always belongs to the event's course, spec §6), the ratio
is at most 100 even in binary64 arithmetic, so the result is exactly 100. -/

/-- Helper: `log2Fuel` computes the floor logarithm when given enough fuel. -/
theorem log2Fuel_spec :
    ∀ (fuel n : ℕ), n ≤ fuel → 1 ≤ n →
      2 ^ log2Fuel fuel n ≤ n ∧ n < 2 ^ (log2Fuel fuel n + 1) := by
  intro fuel
  induction fuel with
  | zero => intro n h1 h2; omega
  | succ fuel ih =>
    intro n h1 h2
    by_cases hn : 2 ≤ n
    · have hf : n / 2 ≤ fuel := by omega
      have h1' : 1 ≤ n / 2 := by omega
      obtain ⟨ha, hb⟩ := ih (n / 2) hf h1'
      simp only [log2Fuel, if_pos hn]
      constructor
      · rw [pow_succ]
        omega
      · rw [pow_succ]
        omega
    · have hone : n = 1 := by omega
      subst hone
      simp only [log2Fuel, if_neg hn]
      exact ⟨by norm_num, by norm_num⟩

/-- Helper: the floor-log2 bracketing of a positive natural. -/
theorem nlog2_spec (n : ℕ) (h : 1 ≤ n) :
    2 ^ nlog2 n ≤ n ∧ n < 2 ^ (nlog2 n + 1) :=
  log2Fuel_spec n n (le_refl n) h

/-- Helper: floor-log2 is monotone on positive naturals. -/
theorem nlog2_le_of_le {m n : ℕ} (hm : 1 ≤ m) (hmn : m ≤ n) : nlog2 m ≤ nlog2 n := by
  have hn : 1 ≤ n := le_trans hm hmn
  obtain ⟨ha, _⟩ := nlog2_spec m hm
  obtain ⟨_, hb⟩ := nlog2_spec n hn
  have hp : 2 ^ nlog2 m < 2 ^ (nlog2 n + 1) := lt_of_le_of_lt (ha.trans hmn) hb
  have := (Nat.pow_lt_pow_iff_right (by norm_num : 1 < 2)).mp hp
  omega

/-- Helper: the rounded quotient never exceeds an integer bound on the
exact quotient. -/
theorem rnearestDiv_le (N D K : ℕ) (hD : 0 < D) (h : N ≤ D * K) :
    rnearestDiv N D ≤ K := by
  have hq : N / D ≤ K := by
    calc N / D ≤ D * K / D := Nat.div_le_div_right h
    _ = K := Nat.mul_div_cancel_left K hD
  have hN : D * (N / D) + N % D = N := Nat.div_add_mod N D
  have hr : N % D < D := Nat.mod_lt _ hD
  have hlt : 1 ≤ N % D → N / D < K := by
    intro hr1
    rcases Nat.lt_or_ge (N / D) K with h' | h'
    · exact h'
    · exfalso
      have hmul : D * K ≤ D * (N / D) := Nat.mul_le_mul_left D h'
      linarith
  simp only [rnearestDiv]
  split_ifs with c1 c2 c3
  · exact hq
  · have := hlt (by omega)
    omega
  · exact hq
  · have := hlt (by omega)
    omega

/-- Helper: the exponent of `n / d` is nonpositive when `n ≤ d`. -/
theorem ratLog2_nonpos (n d : ℕ) (hn : 1 ≤ n) (hnd : n ≤ d) : ratLog2 n d ≤ 0 := by
  have hle : nlog2 n ≤ nlog2 d := nlog2_le_of_le hn hnd
  simp only [ratLog2]
  split_ifs <;> omega

/-- Helper: for `1 ≤ n ≤ d` the binary64 quotient is a significand over a
nonnegative power-of-two scale, and its value is at most 1. -/
theorem floatOfRatDiv_le_one (n d : ℕ) (hn : 1 ≤ n) (hnd : n ≤ d) :
    ∃ (m t : ℕ), floatOfRatDiv n d = (m, -(t : ℤ)) ∧ m ≤ 2 ^ t := by
  have hd : 0 < d := lt_of_lt_of_le hn hnd
  have hne : ¬ n = 0 := by omega
  have hrl : ratLog2 n d ≤ 0 := ratLog2_nonpos n d hn hnd
  have ht : (0 : ℤ) ≤ 52 - ratLog2 n d := by omega
  refine ⟨rnearestDiv (n * 2 ^ (52 - ratLog2 n d).toNat) d, (52 - ratLog2 n d).toNat, ?_, ?_⟩
  · simp only [floatOfRatDiv, if_neg hne, if_pos ht]
    rw [Int.toNat_of_nonneg ht]
  · exact rnearestDiv_le _ _ _ hd (Nat.mul_le_mul_right _ hnd)

/-- Helper: the floor of a dyadic value bounded by `K * 2 ^ t` over scale
`2 ^ (-t)` is at most `K`. -/
theorem floorFloat_le (m t K : ℕ) (h : m ≤ K * 2 ^ t) :
    floorFloat (m, -(t : ℤ)) ≤ K := by
  rcases Nat.eq_zero_or_pos t with rfl | ht
  · simp only [floorFloat, Nat.cast_zero, neg_zero]
    simpa using h
  · have hneg : ¬ (0 : ℤ) ≤ -(t : ℤ) := by omega
    simp only [floorFloat, if_neg hneg, neg_neg, Int.toNat_natCast]
    calc m / 2 ^ t ≤ K * 2 ^ t / 2 ^ t := Nat.div_le_div_right h
    _ = K := Nat.mul_div_cancel K (Nat.two_pow_pos t)

/-- Helper: the Python percentage of a ratio at most 1 never exceeds 100,
binary64 rounding included. -/
theorem pyPercent_le_100 (n d : ℕ) (h : n ≤ d) : pyPercent n d ≤ 100 := by
  rcases Nat.eq_zero_or_pos d with rfl | hd
  · simp [pyPercent]
  rcases Nat.eq_zero_or_pos n with rfl | hn
  · have e0 : floatOfRatDiv 0 d = (0, 0) := by simp [floatOfRatDiv]
    have : pyPercent 0 d = 0 := by
      simp only [pyPercent, if_neg (by omega : ¬ d = 0), e0]
      rfl
    omega
  · obtain ⟨m, t, heq, hm⟩ := floatOfRatDiv_le_one n d hn h
    simp only [pyPercent, if_neg (by omega : ¬ d = 0), heq, floatMul100]
    have hM : 100 * m ≤ 100 * 2 ^ t := Nat.mul_le_mul_left 100 hm
    by_cases ha : nlog2 (100 * m) ≤ 52
    · simp only [roundSig, if_pos ha]
      exact floorFloat_le _ t 100 hM
    · simp only [roundSig, if_neg ha]
      have hM1 : 1 ≤ 100 * m := by
        by_contra h0
        have hz : 100 * m = 0 := by omega
        rw [hz] at ha
        exact ha (by norm_num [nlog2, log2Fuel])
      obtain ⟨hsp, _⟩ := nlog2_spec (100 * m) hM1
      have hlt : 2 ^ nlog2 (100 * m) < 2 ^ (t + 7) := by
        apply lt_of_le_of_lt (hsp.trans hM)
        calc 100 * 2 ^ t < 128 * 2 ^ t :=
              (Nat.mul_lt_mul_right (Nat.two_pow_pos t)).mpr (by norm_num)
        _ = 2 ^ (t + 7) := by rw [pow_add]; ring
      have hk : nlog2 (100 * m) < t + 7 :=
        (Nat.pow_lt_pow_iff_right (by norm_num : 1 < 2)).mp hlt
      have hkt : nlog2 (100 * m) - 52 ≤ t := by omega
      have hbound : 100 * m ≤
          2 ^ (nlog2 (100 * m) - 52) * (100 * 2 ^ (t - (nlog2 (100 * m) - 52))) := by
        refine hM.trans ?_
        rw [show 2 ^ (nlog2 (100 * m) - 52) * (100 * 2 ^ (t - (nlog2 (100 * m) - 52)))
            = 100 * (2 ^ (nlog2 (100 * m) - 52) * 2 ^ (t - (nlog2 (100 * m) - 52))) by ring,
          ← pow_add, show (nlog2 (100 * m) - 52) + (t - (nlog2 (100 * m) - 52)) = t by omega]
      have hrd := rnearestDiv_le (100 * m) (2 ^ (nlog2 (100 * m) - 52))
        (100 * 2 ^ (t - (nlog2 (100 * m) - 52))) (Nat.two_pow_pos _) hbound
      have hscale : -(t : ℤ) + ((nlog2 (100 * m) - 52 : ℕ) : ℤ) =
          -(((t - (nlog2 (100 * m) - 52) : ℕ)) : ℤ) := by omega
      rw [hscale]
      exact floorFloat_le _ _ 100 hrd

/-- Helper: under referential integrity (every event's lesson belongs to the
event's course) a student's distinct completed lessons in a course cannot
outnumber the course's lessons. -/
theorem completed_lessons_le_total (store : Store) (sid cid : ℕ) (sa : Option ℤ)
    (hWF : ∀ e ∈ store.events, ∀ lid, e.lesson_id = some lid →
      ∃ l ∈ store.lessons, l.id = lid ∧ l.course_id = e.course_id) :
    completed_lessons store.events sid cid sa ≤ total_lessons store cid := by
  unfold completed_lessons total_lessons
  refine List.Subperm.length_le ?_
  refine List.Nodup.subperm (List.nodup_dedup _) ?_
  intro x hx
  rw [List.mem_dedup] at hx ⊢
  rw [List.mem_filterMap] at hx
  obtain ⟨e, he, hel⟩ := hx
  rw [List.mem_filter] at he
  obtain ⟨hee, hp⟩ := he
  rw [decide_eq_true_eq] at hp
  obtain ⟨hsid, hcid, htype, hlnn, hw⟩ := hp
  obtain ⟨l, hl, hlid, hlc⟩ := hWF e hee x hel
  rw [List.mem_map]
  exact ⟨l, List.mem_filter.mpr ⟨hl, by rw [decide_eq_true_eq, hlc, hcid]⟩, hlid⟩

/-- C6: for every store satisfying the referential integrity the ingestion
adapter guarantees (an event's lesson belongs to the event's course), every
student/course pair and every window, an in-window `course_completed` event
forces the returned progress to exactly 100, whatever the lesson ratio
would have computed. -/
theorem progress_forced_100_on_course_completed :
    ∀ (store : Store) (sid cid : ℕ) (sa : Option ℤ),
      (∀ e ∈ store.events, ∀ lid, e.lesson_id = some lid →
        ∃ l ∈ store.lessons, l.id = lid ∧ l.course_id = e.course_id) →
      has_course_completed store.events sid cid sa = true →
      student_progress store sid cid sa = 100 := by
  intro store sid cid sa hWF hcc
  have hle : completed_lessons store.events sid cid sa ≤ total_lessons store cid :=
    completed_lessons_le_total store sid cid sa hWF
  have hb : pyPercent (completed_lessons store.events sid cid sa) (total_lessons store cid) ≤ 100 :=
    pyPercent_le_100 _ _ hle
  simp only [student_progress, hcc]
  by_cases ht : total_lessons store cid ≠ 0
  · rw [if_pos ht]
    by_cases hlt :
        ((pyPercent (completed_lessons store.events sid cid sa) (total_lessons store cid) : ℤ)) < 100
    · rw [if_pos ⟨trivial, hlt⟩]
    · rw [if_neg (fun hx => hlt hx.2)]
      omega
  · rw [if_neg ht]
    norm_num

/-- Witness for C6: in `storeOverride` student 5 completed one of the two
lessons of course 1 (ratio 50) but has a `course_completed` event, so the
progress returned is exactly 100. -/
theorem progress_forced_100_witness :
    student_progress storeOverride 5 1 none = 100 ∧
    total_lessons storeOverride 1 = 2 ∧
    completed_lessons storeOverride.events 5 1 none = 1 := by
  refine ⟨progress_forced_100_on_course_completed storeOverride 5 1 none ?_ (by decide),
    by decide, by decide⟩
  intro e he lid hl
  simp only [storeOverride, List.mem_cons, List.not_mem_nil, or_false] at he
  rcases he with rfl | rfl
  · obtain rfl : lid = 10 := (Option.some.inj hl).symm
    exact ⟨⟨10, 1⟩, by decide, rfl, rfl⟩
  · exact Option.noConfusion hl
